import Mathlib

/-!
Verification of the ps-sig Pointcheval-Sanders signature library
(files `src/keys.rs` and `src/pok_sig.rs`).

Group embedding.  The library works over a Type-III pairing with prime-order
cyclic groups G1, G2, Gt.  We shallowly embed each group by its exponent space
relative to a fixed generator of the ambient cyclic group: a group element is
represented by a scalar of the field `F`, scalar multiplication of an element
`a` by a scalar `s` is the field product `s * a`, the group identity is `0`,
and the pairing `e : G1 x G2 -> Gt` is represented by the field product of the
two exponents (bilinear, with `1_Gt` represented by `0`).  Multi-scalar
multiplication becomes a dot product of scalar lists.  This is a faithful
model of the prime-order groups used by the code for all the algebraic
statements proved below.

Hash-to-curve (`from_msg_hash`) is an external primitive of the arithmetic
library; it is modelled by opaque function parameters `hashG1 hashG2 :
List Nat -> F` (byte strings are `List Nat`).

Randomness: every random field element drawn by the code
(`FieldElement::random()`) is made an explicit argument, so all functions are
deterministic; streams of fresh blindings are passed as functions `Nat -> F`.

Partiality: `PoKOfSignatureProof::verify` in `pok_sig.rs` can panic (an
unguarded index `vk.Y_tilde[i]` and a `usize` subtraction that can overflow);
its embedding returns `Option (Except PSError Bool)`, where `none` models the
panic and `some` a normal return.

Source files `signature.rs`, `errors.rs`, the `impl_PoK_VC!` macro body and
the `Params` type are not part of the provided sources; the definitions that
stand for them are modelled from the specification and carry a doc comment
saying so.
-/

set_option linter.unusedSectionVars false

namespace PSSig

/-- Error type, from the variants used in `keys.rs` and `pok_sig.rs`
(`errors.rs` itself is not among the provided sources). -/
inductive PSError where
  | InvalidVerkey (y : Nat) (y_tilde : Nat)
  | UnsupportedNoOfMessages
  | UnequalNoOfBasesExponents
  | GeneralError (msg : String)
deriving DecidableEq, Repr

variable {F : Type} [Field F] [DecidableEq F]

/-- Multi-scalar multiplication `bases.multi_scalar_mul(exps)` in the exponent
embedding: the dot product of the two scalar lists. -/
def msm (bases exps : List F) : F :=
  (List.zipWith (fun b e => b * e) bases exps).sum

/-- Signing key, from `keys.rs`: a group element `X` (in `SignatureGroup`,
i.e. G1) and the vector `y` of per-message scalars (a private field). -/
structure Sigkey (F : Type) where
  X : F
  y : List F
deriving DecidableEq, Repr

/-- Verification key, from `keys.rs`: the generators `g`, `g_tilde` together
with `X_tilde`, `Y`, `Y_tilde`. -/
structure Verkey (F : Type) where
  g : F
  g_tilde : F
  X_tilde : F
  Y : List F
  Y_tilde : List F
deriving DecidableEq, Repr

/-- From `keys.rs`: `Verkey::validate` checks `|Y| = |Y_tilde|`. -/
def Verkey.validate (vk : Verkey F) : Except PSError Unit :=
  if vk.Y.length ≠ vk.Y_tilde.length then
    .error (.InvalidVerkey vk.Y.length vk.Y_tilde.length)
  else .ok ()

/-- Byte string `" : g"` appended to the label for the G1 generator. -/
def gTag : List Nat := [32, 58, 32, 103]

/-- Byte string `" : g_tilde"` appended to the label for the G2 generator. -/
def gTildeTag : List Nat := [32, 58, 32, 103, 95, 116, 105, 108, 100, 101]

/-- From `keys.rs`: `keygen(count_messages, label)`.  The sampled scalars are
the explicit arguments `x` and `ys` (the loop draws `ys 0, ys 1, ...`). -/
def keygen (hashG1 hashG2 : List Nat → F) (count_messages : Nat) (label : List Nat)
    (x : F) (ys : Nat → F) : Sigkey F × Verkey F :=
  let g := hashG1 (label ++ gTag)
  let g_tilde := hashG2 (label ++ gTildeTag)
  let y := (List.range count_messages).map ys
  ({ X := x * g, y := y },
   { g := g, g_tilde := g_tilde, X_tilde := x * g_tilde,
     Y := y.map (fun yi => yi * g), Y_tilde := y.map (fun yi => yi * g_tilde) })

/-- Modelled from the spec: the `keys::Params` type imported by `pok_sig.rs`
is absent from the provided `keys.rs`; per the spec it is a pair of
generators derived from a label. -/
structure Params (F : Type) where
  g : F
  g_tilde : F
deriving DecidableEq, Repr

/-- Modelled from the spec: `Params::new(label)` derives the two generators
by hash-to-curve over the tagged label. -/
def Params.new (hashG1 hashG2 : List Nat → F) (label : List Nat) : Params F :=
  { g := hashG1 (label ++ gTag), g_tilde := hashG2 (label ++ gTildeTag) }

/-- A PS signature, a pair of G1 elements (`signature.rs` layout, as used by
`pok_sig.rs`). -/
structure Signature (F : Type) where
  sigma_1 : F
  sigma_2 : F
deriving DecidableEq, Repr

/-- Modelled from the spec: `Signature::new(msgs, sk, params)` from the
missing `signature.rs`, with the freshly sampled nonzero scalar `u` explicit:
check the message count, set `h = g^u`, `sigma_1 = h` and
`sigma_2 = h^(x + sum y_i * m_i)`.  The scalars `x` and `ys` are the ones
sampled at keygen. -/
def Signature.new (msgs : List F) (x : F) (ys : List F) (params : Params F) (u : F) :
    Except PSError (Signature F) :=
  if msgs.length ≠ ys.length then .error .UnsupportedNoOfMessages
  else
    let h := u * params.g
    .ok { sigma_1 := h, sigma_2 := (x + msm ys msgs) * h }

/-- Modelled from the spec: `Signature::check_verkey_and_messages_compat`
from the missing `signature.rs`: the message count must match the count
supported by the key, else `UnsupportedNoOfMessages`. -/
def check_verkey_and_messages_compat (messages : List F) (vk : Verkey F) :
    Except PSError Unit :=
  if messages.length ≠ vk.Y_tilde.length then .error .UnsupportedNoOfMessages
  else .ok ()

/-- Commitment state of the multi-base Schnorr proof over `OtherGroup` (G2):
ordered bases, blindings and the commitment `T`.  The concrete layout is
modelled from the spec, the `impl_PoK_VC!` macro body being absent from the
provided sources. -/
structure ProverCommittedOtherGroup (F : Type) where
  gens : List F
  blindings : List F
  commitment : F
deriving DecidableEq, Repr

/-- Schnorr proof over `OtherGroup` (G2): commitment `T` and response
vector. -/
structure ProofOtherGroup (F : Type) where
  commitment : F
  responses : List F
deriving DecidableEq, Repr

/-- Blinding resolution of the commit phase: a supplied blinding is used as
given, a missing one is drawn from the fresh stream. -/
def resolveBlindings : List (Option F) → (Nat → F) → Nat → List F
  | [], _, _ => []
  | some b :: rest, fr, k => b :: resolveBlindings rest fr k
  | none :: rest, fr, k => fr k :: resolveBlindings rest fr (k + 1)

/-- Modelled from the spec: the commit phase of PoK-VC (`ProverCommitting`
calls `commit(base, blinding?)` in order, then `finish()` computes
`T = prod b_j ^ rho_j`). -/
def proverCommit (bases : List F) (blinds : List (Option F)) (fr : Nat → F) :
    ProverCommittedOtherGroup F :=
  let rho := resolveBlindings blinds fr 0
  { gens := bases, blindings := rho, commitment := msm bases rho }

/-- Modelled from the spec: the response phase `gen_proof(challenge, secrets)`
of PoK-VC, with `s_j = rho_j + c * w_j`, failing with
`UnequalNoOfBasesExponents` on a length mismatch. -/
def ProverCommittedOtherGroup.gen_proof (st : ProverCommittedOtherGroup F)
    (challenge : F) (secrets : List F) : Except PSError (ProofOtherGroup F) :=
  if secrets.length ≠ st.blindings.length then .error .UnequalNoOfBasesExponents
  else .ok { commitment := st.commitment,
             responses := List.zipWith (fun rho w => rho + challenge * w) st.blindings secrets }

/-- Modelled from the spec: PoK-VC verification `verify(bases, commitment,
challenge)`: require `|bases| = |responses|` and check
`prod b_j ^ s_j = T * C ^ c`. -/
def ProofOtherGroup.verify (pr : ProofOtherGroup F) (bases : List F) (commitment : F)
    (challenge : F) : Except PSError Bool :=
  if bases.length ≠ pr.responses.length then .error .UnequalNoOfBasesExponents
  else .ok (decide (msm bases pr.responses = pr.commitment + challenge * commitment))

/-- Prover working state of the proof of knowledge of a signature, from
`pok_sig.rs`. -/
structure PoKOfSignature (F : Type) where
  secrets : List F
  sig : Signature F
  J : F
  pok_vc : ProverCommittedOtherGroup F
deriving DecidableEq, Repr

/-- The proof sent on the wire, from `pok_sig.rs`. -/
structure PoKOfSignatureProof (F : Type) where
  sig : Signature F
  J : F
  proof_vc : ProofOtherGroup F
deriving DecidableEq, Repr

/-- Error text of the revealed-index bound check in
`PoKOfSignature::init`. -/
def idxErrMsg (i n : Nat) : String :=
  "Index " ++ Nat.repr i ++ " should be less than " ++ Nat.repr n

/-- Error text of the blindings-count check in `PoKOfSignature::init`. -/
def blindErrMsg (b h : Nat) : String :=
  "No of blindings " ++ Nat.repr b ++ " not equal to number of hidden messages " ++ Nat.repr h

/-- Hidden message indices: the loop over `0..n` skipping the revealed
indices, hence the ascending enumeration of `[0,n)` minus the revealed
set. -/
def hiddenIndices (n : Nat) (revealed : List Nat) : List Nat :=
  (List.range n).filter (fun i => decide (i ∉ revealed))

/-- From `pok_sig.rs`: `PoKOfSignature::init(sig, vk, params, messages,
blindings, revealed_msg_indices)`.  The revealed set is carried as a list
(its iteration order); the random scalars `r`, `t` and the stream `fr` of
fresh blindings are explicit arguments. -/
def PoKOfSignature.init (sig : Signature F) (vk : Verkey F) (params : Params F)
    (messages : List F) (blindings : Option (List F)) (revealed_msg_indices : List Nat)
    (r t : F) (fr : Nat → F) : Except PSError (PoKOfSignature F) :=
  match revealed_msg_indices.find? (fun i => decide (messages.length ≤ i)) with
  | some idx => .error (.GeneralError (idxErrMsg idx messages.length))
  | none =>
    match check_verkey_and_messages_compat messages vk with
    | .error e => .error e
    | .ok _ =>
      let hiddenCount := messages.length - revealed_msg_indices.length
      let blRes : Except PSError (List (Option F)) :=
        match blindings with
        | some b =>
          if hiddenCount ≠ b.length then .error (.GeneralError (blindErrMsg b.length hiddenCount))
          else .ok (b.map some)
        | none => .ok (List.replicate hiddenCount none)
      match blRes with
      | .error e => .error e
      | .ok blinds =>
        let sigma_prime_1 := r * sig.sigma_1
        let sigma_prime_2 := r * (sig.sigma_2 + t * sig.sigma_1)
        let hidden := hiddenIndices vk.Y_tilde.length revealed_msg_indices
        let bases := params.g_tilde :: hidden.map (fun i => vk.Y_tilde.getD i 0)
        let exponents := t :: hidden.map (fun i => messages.getD i 0)
        let J := msm bases exponents
        let committed := proverCommit bases (none :: blinds) fr
        .ok { secrets := exponents,
              sig := { sigma_1 := sigma_prime_1, sigma_2 := sigma_prime_2 },
              J := J, pok_vc := committed }

/-- From `pok_sig.rs`: `PoKOfSignature::gen_proof(challenge)`. -/
def PoKOfSignature.gen_proof (pok : PoKOfSignature F) (challenge : F) :
    Except PSError (PoKOfSignatureProof F) :=
  match pok.pok_vc.gen_proof challenge pok.secrets with
  | .error e => .error e
  | .ok proof_vc => .ok { sig := pok.sig, J := pok.J, proof_vc := proof_vc }

/-- From `pok_sig.rs`: `PoKOfSignatureProof::verify(vk, params,
revealed_msgs, challenge)`.  The revealed map is a list of key-value pairs.
The value `none` models a panic of the Rust code: the `usize` expression
`vk.Y_tilde.len() - revealed_msgs.len() + 1` overflowing when the map is
larger than `Y_tilde`, and the unguarded index `vk.Y_tilde[i]` when the map
holds a key `i` out of range. -/
def PoKOfSignatureProof.verify (pr : PoKOfSignatureProof F) (vk : Verkey F)
    (params : Params F) (revealed_msgs : List (Nat × F)) (challenge : F) :
    Option (Except PSError Bool) :=
  if pr.sig.sigma_1 = 0 ∨ pr.sig.sigma_2 = 0 then some (.ok false)
  else if vk.Y_tilde.length < revealed_msgs.length then none
  else
    let bases := params.g_tilde ::
      ((List.range vk.Y_tilde.length).filter
        (fun i => decide (∀ p ∈ revealed_msgs, p.1 ≠ i))).map (fun i => vk.Y_tilde.getD i 0)
    match pr.proof_vc.verify bases pr.J challenge with
    | .error e => some (.error e)
    | .ok false => some (.ok false)
    | .ok true =>
      if revealed_msgs.any (fun p => decide (vk.Y_tilde.length ≤ p.1)) then none
      else
        let Jfull := pr.J + msm (revealed_msgs.map (fun p => vk.Y_tilde.getD p.1 0))
                       (revealed_msgs.map Prod.snd)
        some (.ok (decide
          (pr.sig.sigma_1 * (Jfull + vk.X_tilde) + (- pr.sig.sigma_2) * params.g_tilde = 0)))

/-! Helper lemmas about the embedding. -/

@[simp]
theorem msm_nil_left (l : List F) : msm ([] : List F) l = 0 := rfl

@[simp]
theorem msm_nil_right (l : List F) : msm l ([] : List F) = 0 := by
  cases l <;> rfl

@[simp]
theorem msm_cons (b e : F) (bs es : List F) :
    msm (b :: bs) (e :: es) = b * e + msm bs es := by
  simp [msm]

theorem resolveBlindings_length (bl : List (Option F)) (fr : Nat → F) (k : Nat) :
    (resolveBlindings bl fr k).length = bl.length := by
  induction bl generalizing k with
  | nil => rfl
  | cons hd tl ih => cases hd <;> simp [resolveBlindings, ih]

theorem resolveBlindings_map_some (l : List F) (fr : Nat → F) (k : Nat) :
    resolveBlindings (l.map some) fr k = l := by
  induction l generalizing k with
  | nil => rfl
  | cons hd tl ih => simp [resolveBlindings, ih]

theorem msm_linear (c : F) (B rho w : List F) (h : rho.length = w.length) :
    msm B (List.zipWith (fun a b => a + c * b) rho w) = msm B rho + c * msm B w := by
  induction B generalizing rho w with
  | nil => simp
  | cons b bs ih =>
    cases rho with
    | nil =>
      cases w with
      | nil => simp
      | cons _ _ => simp at h
    | cons r0 rs =>
      cases w with
      | nil => simp at h
      | cons w0 ws =>
        simp only [List.length_cons, Nat.succ.injEq] at h
        simp only [List.zipWith_cons_cons, msm_cons, ih rs ws h]
        ring

theorem zipWith_getElem?_eq (f : F → F → F) (l1 l2 : List F) (i : Nat) (a b : F)
    (h1 : l1[i]? = some a) (h2 : l2[i]? = some b) :
    (List.zipWith f l1 l2)[i]? = some (f a b) := by
  induction l1 generalizing l2 i with
  | nil => simp at h1
  | cons x xs ih =>
    cases l2 with
    | nil => simp at h2
    | cons y ys =>
      cases i with
      | zero =>
        simp only [List.getElem?_cons_zero, Option.some.injEq] at h1 h2
        simp [h1, h2]
      | succ j =>
        simp only [List.getElem?_cons_succ] at h1 h2
        simpa using ih ys j h1 h2

theorem hiddenIndices_mem (n : Nat) (R : List Nat) (i : Nat) :
    i ∈ hiddenIndices n R ↔ i < n ∧ i ∉ R := by
  simp [hiddenIndices, List.mem_filter]

theorem hiddenIndices_sorted (n : Nat) (R : List Nat) :
    (hiddenIndices n R).Pairwise (· < ·) :=
  (List.pairwise_lt_range n).sublist (List.filter_sublist _)

theorem range_filter_mem_perm (n : Nat) (R : List Nat) (hnd : R.Nodup)
    (hR : ∀ i ∈ R, i < n) :
    List.Perm ((List.range n).filter (fun i => !decide (i ∉ R))) R := by
  rw [List.perm_ext_iff_of_nodup ((List.nodup_range n).filter _) hnd]
  intro a
  simp only [List.mem_filter, List.mem_range, Bool.not_eq_eq_eq_not, Bool.not_true,
    decide_eq_false_iff_not, not_not]
  exact ⟨fun h => h.2, fun h => ⟨hR a h, h⟩⟩

theorem hidden_sum_split (n : Nat) (R : List Nat) (f : Nat → F) (hnd : R.Nodup)
    (hR : ∀ i ∈ R, i < n) :
    ((hiddenIndices n R).map f).sum + (R.map f).sum = ((List.range n).map f).sum := by
  have hperm := List.filter_append_perm (fun i => decide (i ∉ R)) (List.range n)
  have hmem := range_filter_mem_perm n R hnd hR
  have h1 : ((List.range n).map f).sum
      = (((List.range n).filter (fun i => decide (i ∉ R))).map f).sum
        + (((List.range n).filter (fun i => !decide (i ∉ R))).map f).sum := by
    have := (hperm.map f).sum_eq
    simpa [List.map_append] using this.symm
  have h2 : (((List.range n).filter (fun i => !decide (i ∉ R))).map f).sum
      = (R.map f).sum := (hmem.map f).sum_eq
  rw [h1, h2]
  rfl

theorem revealed_length_le (n : Nat) (R : List Nat) (hnd : R.Nodup)
    (hR : ∀ i ∈ R, i < n) : R.length ≤ n := by
  have h := (range_filter_mem_perm n R hnd hR).length_eq
  calc R.length = ((List.range n).filter (fun i => !decide (i ∉ R))).length := h.symm
    _ ≤ (List.range n).length := List.length_filter_le _ _
    _ = n := List.length_range n

theorem hiddenIndices_length (n : Nat) (R : List Nat) (hnd : R.Nodup)
    (hR : ∀ i ∈ R, i < n) : (hiddenIndices n R).length = n - R.length := by
  have hperm := List.filter_append_perm (fun i => decide (i ∉ R)) (List.range n)
  have h1 := hperm.length_eq
  have h2 := (range_filter_mem_perm n R hnd hR).length_eq
  simp only [List.length_append, List.length_range] at h1
  simp only [hiddenIndices]
  omega

theorem getD_map_range (g : Nat → F) {n i : Nat} (h : i < n) :
    (((List.range n).map g).getD i 0) = g i := by
  rw [List.getD_eq_getElem _ _ (by simpa using h)]
  simp

theorem zipWith_mul_map_range (ys : Nat → F) (m : List F) {n : Nat} (h : m.length = n) :
    List.zipWith (fun b e => b * e) ((List.range n).map ys) m
      = (List.range n).map (fun i => ys i * m.getD i 0) := by
  apply List.ext_getElem
  · simp [h]
  · intro i h1 h2
    have hi : i < n := by simpa using h2
    have him : i < m.length := by omega
    simp only [List.getElem_zipWith, List.getElem_map, List.getElem_range]
    rw [List.getD_eq_getElem _ _ him]

theorem msm_map_map (f g : Nat → F) (l : List Nat) :
    msm (l.map f) (l.map g) = (l.map (fun i => f i * g i)).sum := by
  induction l with
  | nil => rfl
  | cons hd tl ih => simp [ih]

/-! Structural extraction lemmas for successful runs. -/

theorem gen_proof_ok_shape (pok : PoKOfSignature F) (c : F) (pr : PoKOfSignatureProof F)
    (h : pok.gen_proof c = .ok pr) :
    pr.sig = pok.sig ∧ pr.J = pok.J ∧ pr.proof_vc.commitment = pok.pok_vc.commitment ∧
    pr.proof_vc.responses
      = List.zipWith (fun rho w => rho + c * w) pok.pok_vc.blindings pok.secrets ∧
    pok.secrets.length = pok.pok_vc.blindings.length := by
  cases hvc : pok.pok_vc.gen_proof c pok.secrets with
  | error e =>
    rw [PoKOfSignature.gen_proof, hvc] at h
    cases h
  | ok pv =>
    rw [PoKOfSignature.gen_proof, hvc] at h
    unfold ProverCommittedOtherGroup.gen_proof at hvc
    split at hvc
    · cases hvc
    · next hlen =>
      cases hvc
      cases h
      exact ⟨rfl, rfl, rfl, rfl, not_ne_iff.mp hlen⟩

theorem init_ok_shape (sig : Signature F) (vk : Verkey F) (params : Params F)
    (m : List F) (bl : Option (List F)) (R : List Nat) (r t : F) (fr : Nat → F)
    (pok : PoKOfSignature F)
    (h : PoKOfSignature.init sig vk params m bl R r t fr = .ok pok) :
    pok.sig.sigma_1 = r * sig.sigma_1 ∧
    pok.sig.sigma_2 = r * (sig.sigma_2 + t * sig.sigma_1) ∧
    pok.pok_vc.gens = params.g_tilde
        :: (hiddenIndices vk.Y_tilde.length R).map (fun i => vk.Y_tilde.getD i 0) ∧
    pok.secrets = t :: (hiddenIndices vk.Y_tilde.length R).map (fun i => m.getD i 0) ∧
    pok.J = msm pok.pok_vc.gens pok.secrets ∧
    pok.pok_vc.commitment = msm pok.pok_vc.gens pok.pok_vc.blindings ∧
    (∃ blinds : List (Option F),
      pok.pok_vc.blindings = resolveBlindings (none :: blinds) fr 0 ∧
      blinds.length = m.length - R.length) ∧
    m.length = vk.Y_tilde.length := by
  simp only [PoKOfSignature.init] at h
  split at h
  · cases h
  · split at h
    · cases h
    · next hcheck =>
      have hlen : m.length = vk.Y_tilde.length := by
        by_contra hne
        simp [check_verkey_and_messages_compat, hne] at hcheck
      split at h
      · cases h
      · next blinds hbl =>
        refine ?_
        have hblen : blinds.length = m.length - R.length := by
          cases bl with
          | none =>
            simp only at hbl
            cases hbl
            simp
          | some b =>
            simp only at hbl
            split at hbl
            · cases hbl
            · next hb =>
              cases hbl
              simp at hb ⊢
              omega
        cases h
        refine ⟨rfl, rfl, rfl, rfl, rfl, rfl, ⟨blinds, rfl, hblen⟩, hlen⟩

/-- Claim C3: for every verification key, params, revealed-message map and
challenge, a proof whose randomized signature has an identity component is
rejected with the boolean `Ok(false)`, not an error, regardless of every
other input (the check precedes all others). -/
theorem verify_identity_rejection (pr : PoKOfSignatureProof F) (vk : Verkey F)
    (params : Params F) (revealed_msgs : List (Nat × F)) (challenge : F)
    (h : pr.sig.sigma_1 = 0 ∨ pr.sig.sigma_2 = 0) :
    pr.verify vk params revealed_msgs challenge = some (.ok false) := by
  unfold PoKOfSignatureProof.verify
  rw [if_pos h]

/-- Claim C6: keygen derives the generators from the tagged label by
hash-to-curve and returns a verification key with `X_tilde = g_tilde^x`,
`Y_i = g^(y_i)`, `Y_tilde_i = g_tilde^(y_i)` for the same sampled scalars,
with both vectors of length `n`, so that `Verkey::validate` succeeds. -/
theorem keygen_postconditions (hashG1 hashG2 : List Nat → F) (n : Nat) (label : List Nat)
    (x : F) (ys : Nat → F) :
    (keygen hashG1 hashG2 n label x ys).2.g = hashG1 (label ++ gTag) ∧
    (keygen hashG1 hashG2 n label x ys).2.g_tilde = hashG2 (label ++ gTildeTag) ∧
    (keygen hashG1 hashG2 n label x ys).2.X_tilde
      = x * (keygen hashG1 hashG2 n label x ys).2.g_tilde ∧
    (keygen hashG1 hashG2 n label x ys).2.Y.length = n ∧
    (keygen hashG1 hashG2 n label x ys).2.Y_tilde.length = n ∧
    (∀ i, i < n →
      (keygen hashG1 hashG2 n label x ys).2.Y.getD i 0
        = ys i * (keygen hashG1 hashG2 n label x ys).2.g ∧
      (keygen hashG1 hashG2 n label x ys).2.Y_tilde.getD i 0
        = ys i * (keygen hashG1 hashG2 n label x ys).2.g_tilde) ∧
    (keygen hashG1 hashG2 n label x ys).2.validate = .ok () := by
  refine ⟨rfl, rfl, rfl, by simp [keygen], by simp [keygen], ?_, by simp [Verkey.validate, keygen]⟩
  intro i hi
  constructor
  · simp only [keygen, List.map_map]
    exact getD_map_range _ hi
  · simp only [keygen, List.map_map]
    exact getD_map_range _ hi

instance : Fact (Nat.Prime 11) := ⟨by norm_num⟩

/-- Claim C3 witness: a concrete proof with `sigma_1` the identity is
rejected with `Ok(false)`. -/
theorem verify_identity_rejection_witness :
    (⟨⟨0, 1⟩, 0, ⟨0, []⟩⟩ : PoKOfSignatureProof (ZMod 11)).verify
      ⟨1, 1, 0, [5], [5]⟩ ⟨1, 1⟩ [(0, 2)] 3 = some (.ok false) :=
  verify_identity_rejection _ _ _ _ _ (Or.inl rfl)

/-- Claim C6 witness: the postconditions at a concrete instantiation. -/
theorem keygen_postconditions_witness :
    ((keygen (F := ZMod 11) (fun _ => 2) (fun _ => 3) 2 [7] 4 (fun i => i + 1)).2.Y.getD 1 0
        = (1 + 1) * (keygen (F := ZMod 11) (fun _ => 2) (fun _ => 3) 2 [7] 4 (fun i => i + 1)).2.g) ∧
    (keygen (F := ZMod 11) (fun _ => 2) (fun _ => 3) 2 [7] 4 (fun i => i + 1)).2.validate
      = .ok () := by
  have h := keygen_postconditions (F := ZMod 11) (fun _ => 2) (fun _ => 3) 2 [7] 4 (fun i => i + 1)
  exact ⟨(h.2.2.2.2.2.1 1 (by decide)).1, h.2.2.2.2.2.2⟩

/-- Claim C7 counterexample: the claim that the message-specific scalars are
not retained in the returned Sigkey is false; at this concrete keygen call
the Sigkey stores the sampled scalar vector. -/
theorem sigkey_scalar_only_cex :
    (keygen (F := ZMod 11) (fun _ => 1) (fun _ => 1) 1 [] 2 (fun _ => 3)).1.y ≠ [] := by
  decide

/-- Claim C7 (amended): the Sigkey returned by keygen consists of the group
element `X = g^x` together with the vector of sampled message-specific
scalars `y_i`, which is retained inside the Sigkey. -/
theorem sigkey_content (hashG1 hashG2 : List Nat → F) (n : Nat) (label : List Nat)
    (x : F) (ys : Nat → F) :
    (keygen hashG1 hashG2 n label x ys).1.X = x * hashG1 (label ++ gTag) ∧
    (keygen hashG1 hashG2 n label x ys).1.y = (List.range n).map ys :=
  ⟨rfl, rfl⟩

/-- Claim C9: the verifier does not validate revealed indices.  At the first
concrete input the revealed map holds the key `3` while `Y_tilde` has length
1, and verification reaches the unguarded index `vk.Y_tilde[3]`; at the
second the map is larger than `Y_tilde + 1` and the `usize` expression for
the hidden count overflows.  Both are modelled by the abnormal result
`none`: neither `Err` nor `Ok(false)` is returned. -/
theorem verify_not_total_cex :
    ((⟨⟨1, 1⟩, 0, ⟨0, [0, 0]⟩⟩ : PoKOfSignatureProof (ZMod 11)).verify
        ⟨1, 1, 0, [5], [5]⟩ ⟨1, 1⟩ [(3, 7)] 0 = none) ∧
    ((⟨⟨1, 1⟩, 0, ⟨0, [0, 0]⟩⟩ : PoKOfSignatureProof (ZMod 11)).verify
        ⟨1, 1, 0, [], []⟩ ⟨1, 1⟩ [(0, 0), (1, 0)] 0 = none) := by
  constructor <;> rfl

/-- Claim C10: the generators live inside the Verkey produced by
`keys.rs::keygen`, which takes a message count and a label and derives them
internally, while `pok_sig.rs` never reads them from the Verkey: both
`init` and `verify` are invariant under the Verkey generator fields, and
`verify` reads `g_tilde` from the separate `Params` value (it is invariant
under the `g` field of `Params` but not under its `g_tilde` field). -/
theorem generators_in_verkey :
    (∀ (hashG1 hashG2 : List Nat → F) (n : Nat) (label : List Nat) (x : F) (ys : Nat → F),
      (keygen hashG1 hashG2 n label x ys).2.g = hashG1 (label ++ gTag) ∧
      (keygen hashG1 hashG2 n label x ys).2.g_tilde = hashG2 (label ++ gTildeTag)) ∧
    (∀ (pr : PoKOfSignatureProof F) (vk : Verkey F) (params : Params F)
        (D : List (Nat × F)) (c g2 gt2 : F),
      pr.verify { vk with g := g2, g_tilde := gt2 } params D c = pr.verify vk params D c) ∧
    (∀ (sig : Signature F) (vk : Verkey F) (params : Params F) (m : List F)
        (bl : Option (List F)) (R : List Nat) (r t : F) (fr : Nat → F) (g2 gt2 : F),
      PoKOfSignature.init sig { vk with g := g2, g_tilde := gt2 } params m bl R r t fr
        = PoKOfSignature.init sig vk params m bl R r t fr) ∧
    (∀ (pr : PoKOfSignatureProof F) (vk : Verkey F) (D : List (Nat × F)) (c gA gB gt : F),
      pr.verify vk ⟨gA, gt⟩ D c = pr.verify vk ⟨gB, gt⟩ D c) ∧
    ((⟨⟨1, 1⟩, 0, ⟨0, [1]⟩⟩ : PoKOfSignatureProof (ZMod 11)).verify
        ⟨1, 1, 0, [], []⟩ ⟨1, 0⟩ [] 0
      ≠ (⟨⟨1, 1⟩, 0, ⟨0, [1]⟩⟩ : PoKOfSignatureProof (ZMod 11)).verify
        ⟨1, 1, 0, [], []⟩ ⟨1, 1⟩ [] 0) := by
  refine ⟨fun _ _ _ _ _ _ => ⟨rfl, rfl⟩, fun pr vk params D c g2 gt2 => ?_,
    fun sig vk params m bl R r t fr g2 gt2 => ?_, fun pr vk D c gA gB gt => ?_, ?_⟩
  · cases vk; rfl
  · cases vk; rfl
  · rfl
  · have h1 : (⟨⟨1, 1⟩, 0, ⟨0, [1]⟩⟩ : PoKOfSignatureProof (ZMod 11)).verify
        ⟨1, 1, 0, [], []⟩ ⟨1, 0⟩ [] 0 = some (.ok true) := rfl
    have h2 : (⟨⟨1, 1⟩, 0, ⟨0, [1]⟩⟩ : PoKOfSignatureProof (ZMod 11)).verify
        ⟨1, 1, 0, [], []⟩ ⟨1, 1⟩ [] 0 = some (.ok false) := rfl
    rw [h1, h2]
    intro hc
    exact Bool.noConfusion (Except.ok.inj (Option.some.inj hc))

theorem init_some_ok_blindings (sig : Signature F) (vk : Verkey F) (params : Params F)
    (m : List F) (b : List F) (R : List Nat) (r t : F) (fr : Nat → F)
    (pok : PoKOfSignature F)
    (h : PoKOfSignature.init sig vk params m (some b) R r t fr = .ok pok) :
    pok.pok_vc.blindings = fr 0 :: b := by
  simp only [PoKOfSignature.init] at h
  split at h
  · cases h
  · split at h
    · cases h
    · split at h
      · cases h
      · next hb =>
        split at hb
        · cases hb
        · cases hb
          cases h
          simp [proverCommit, resolveBlindings, resolveBlindings_map_some]

/-- Claim C4: the precondition checks of `PoKOfSignature::init`, in order:
first a revealed index out of range gives a GeneralError naming the index,
then a message count different from the count supported by the key gives
UnsupportedNoOfMessages, then a supplied blinding vector whose length is not
the hidden count gives a GeneralError, and otherwise init returns Ok. -/
theorem init_precondition_checks (sig : Signature F) (vk : Verkey F) (params : Params F)
    (m : List F) (bl : Option (List F)) (R : List Nat) (r t : F) (fr : Nat → F) :
    ((∃ i ∈ R, m.length ≤ i) →
      ∃ i ∈ R, m.length ≤ i ∧
        PoKOfSignature.init sig vk params m bl R r t fr
          = .error (.GeneralError (idxErrMsg i m.length))) ∧
    ((∀ i ∈ R, i < m.length) → m.length ≠ vk.Y_tilde.length →
      PoKOfSignature.init sig vk params m bl R r t fr = .error .UnsupportedNoOfMessages) ∧
    (∀ b, (∀ i ∈ R, i < m.length) → m.length = vk.Y_tilde.length → bl = some b →
      b.length ≠ m.length - R.length →
      PoKOfSignature.init sig vk params m bl R r t fr
        = .error (.GeneralError (blindErrMsg b.length (m.length - R.length)))) ∧
    ((∀ i ∈ R, i < m.length) → m.length = vk.Y_tilde.length →
      (∀ b, bl = some b → b.length = m.length - R.length) →
      ∃ st, PoKOfSignature.init sig vk params m bl R r t fr = .ok st) := by
  refine ⟨?_, ?_, ?_, ?_⟩
  · rintro ⟨i, hiR, hile⟩
    cases hfind : R.find? (fun i => decide (m.length ≤ i)) with
    | none =>
      rw [List.find?_eq_none] at hfind
      exact absurd (by simpa using hile) (by simpa using hfind i hiR)
    | some j =>
      refine ⟨j, List.mem_of_find?_eq_some hfind, by simpa using List.find?_some hfind, ?_⟩
      simp only [PoKOfSignature.init, hfind]
  · intro h1 h2
    have hfind : R.find? (fun i => decide (m.length ≤ i)) = none :=
      List.find?_eq_none.mpr (fun x hx => by simpa using Nat.not_le.mpr (h1 x hx))
    have hc : check_verkey_and_messages_compat m vk = .error .UnsupportedNoOfMessages := by
      unfold check_verkey_and_messages_compat
      rw [if_pos h2]
    simp only [PoKOfSignature.init, hfind, hc]
  · intro b h1 h2 hbl hblen
    subst hbl
    have hfind : R.find? (fun i => decide (m.length ≤ i)) = none :=
      List.find?_eq_none.mpr (fun x hx => by simpa using Nat.not_le.mpr (h1 x hx))
    have hc : check_verkey_and_messages_compat m vk = .ok () := by
      unfold check_verkey_and_messages_compat
      rw [if_neg (by omega)]
    simp only [PoKOfSignature.init, hfind, hc]
    rw [if_pos (Ne.symm hblen)]
  · intro h1 h2 hb
    have hfind : R.find? (fun i => decide (m.length ≤ i)) = none :=
      List.find?_eq_none.mpr (fun x hx => by simpa using Nat.not_le.mpr (h1 x hx))
    have hc : check_verkey_and_messages_compat m vk = .ok () := by
      unfold check_verkey_and_messages_compat
      rw [if_neg (by omega)]
    cases bl with
    | none =>
      simp only [PoKOfSignature.init, hfind, hc]
      exact ⟨_, rfl⟩
    | some b =>
      have hbe := hb b rfl
      simp only [PoKOfSignature.init, hfind, hc]
      rw [if_neg (show ¬(m.length - R.length ≠ b.length) by omega)]
      exact ⟨_, rfl⟩

/-- Claim C4 witness: a concrete call with all preconditions satisfied
returns Ok. -/
theorem init_precondition_checks_witness :
    ∃ st, PoKOfSignature.init (F := ZMod 11) ⟨1, 2⟩ ⟨1, 1, 1, [1], [1]⟩ ⟨1, 1⟩
      [4] none [] 1 2 (fun _ => 0) = .ok st :=
  (init_precondition_checks ⟨1, 2⟩ ⟨1, 1, 1, [1], [1]⟩ ⟨1, 1⟩ [4] none [] 1 2
      (fun _ => 0)).2.2.2
    (by intro i hi; cases hi) (by decide) (fun b hb => by cases hb)

/-- Claim C5: a successful `PoKOfSignature::init` on signature
`(sigma_1, sigma_2)` returns the randomized pair `sigma_1^r` and
`(sigma_2 + sigma_1^t)^r`, a base list `(g_tilde, Y_tilde over the hidden
indices)` and secret list `(t, messages over the hidden indices)` where the
hidden indices enumerate the non-revealed indices below `n` in ascending
order, and `J` is the multi-scalar product of the bases by the secrets. -/
theorem init_randomization_construction (sig : Signature F) (vk : Verkey F)
    (params : Params F) (m : List F) (bl : Option (List F)) (R : List Nat)
    (r t : F) (fr : Nat → F) (st : PoKOfSignature F)
    (h : PoKOfSignature.init sig vk params m bl R r t fr = .ok st) :
    st.sig.sigma_1 = r * sig.sigma_1 ∧
    st.sig.sigma_2 = r * (sig.sigma_2 + t * sig.sigma_1) ∧
    st.pok_vc.gens = params.g_tilde
        :: (hiddenIndices vk.Y_tilde.length R).map (fun i => vk.Y_tilde.getD i 0) ∧
    st.secrets = t :: (hiddenIndices vk.Y_tilde.length R).map (fun i => m.getD i 0) ∧
    (hiddenIndices vk.Y_tilde.length R).Pairwise (· < ·) ∧
    (∀ i, i ∈ hiddenIndices vk.Y_tilde.length R ↔ i < vk.Y_tilde.length ∧ i ∉ R) ∧
    st.J = msm st.pok_vc.gens st.secrets := by
  obtain ⟨h1, h2, h3, h4, h5, -⟩ := init_ok_shape sig vk params m bl R r t fr st h
  exact ⟨h1, h2, h3, h4, hiddenIndices_sorted _ _, fun i => hiddenIndices_mem _ _ i, h5⟩

/-- Claim C5 witness: a concrete successful init with the stated `J`
relation. -/
theorem init_randomization_construction_witness :
    ∃ st : PoKOfSignature (ZMod 11),
      PoKOfSignature.init ⟨1, 2⟩ ⟨1, 1, 1, [1], [1]⟩ ⟨1, 1⟩ [4] none [] 1 2
        (fun _ => 0) = .ok st ∧
      st.J = msm st.pok_vc.gens st.secrets := by
  refine ⟨_, rfl, ?_⟩
  exact (init_randomization_construction ⟨1, 2⟩ ⟨1, 1, 1, [1], [1]⟩ ⟨1, 1⟩ [4] none [] 1 2
    (fun _ => 0) _ rfl).2.2.2.2.2.2

/-- Claim C8: for two proofs generated with the same challenge, a hidden
message value occupying hidden slot `j1` of the first run and `j2` of the
second, blinded by the same supplied blinding in both, yields equal
responses at positions `1 + j1` and `1 + j2`, both equal to
`rho + c * m`. -/
theorem response_equality_shared_blinding {sig1 sig2 : Signature F}
    {vk1 vk2 : Verkey F} {p1 p2 : Params F} {m1 m2 b1 b2 : List F}
    {R1 R2 : List Nat} {r1 r2 t1 t2 : F} {f1 f2 : Nat → F}
    {pok1 pok2 : PoKOfSignature F} {pr1 pr2 : PoKOfSignatureProof F}
    {c rho v : F} {j1 j2 : Nat}
    (h1 : PoKOfSignature.init sig1 vk1 p1 m1 (some b1) R1 r1 t1 f1 = .ok pok1)
    (h2 : PoKOfSignature.init sig2 vk2 p2 m2 (some b2) R2 r2 t2 f2 = .ok pok2)
    (hp1 : pok1.gen_proof c = .ok pr1)
    (hp2 : pok2.gen_proof c = .ok pr2)
    (hs1 : pok1.secrets[1 + j1]? = some v)
    (hs2 : pok2.secrets[1 + j2]? = some v)
    (hb1 : b1[j1]? = some rho)
    (hb2 : b2[j2]? = some rho) :
    pr1.proof_vc.responses[1 + j1]? = some (rho + c * v) ∧
    pr2.proof_vc.responses[1 + j2]? = some (rho + c * v) := by
  obtain ⟨-, -, -, hresp1, -⟩ := gen_proof_ok_shape pok1 c pr1 hp1
  obtain ⟨-, -, -, hresp2, -⟩ := gen_proof_ok_shape pok2 c pr2 hp2
  have hbl1 : pok1.pok_vc.blindings[1 + j1]? = some rho := by
    rw [init_some_ok_blindings sig1 vk1 p1 m1 b1 R1 r1 t1 f1 pok1 h1, Nat.add_comm 1 j1]
    simpa using hb1
  have hbl2 : pok2.pok_vc.blindings[1 + j2]? = some rho := by
    rw [init_some_ok_blindings sig2 vk2 p2 m2 b2 R2 r2 t2 f2 pok2 h2, Nat.add_comm 1 j2]
    simpa using hb2
  rw [hresp1, hresp2]
  exact ⟨zipWith_getElem?_eq _ _ _ _ _ _ hbl1 hs1, zipWith_getElem?_eq _ _ _ _ _ _ hbl2 hs2⟩

/-- Claim C8 witness: two concrete runs over the same key sharing the
challenge 2, with the hidden value 5 at hidden slot 0 of the first run and
hidden slot 1 of the second, blinded by 3 in both. -/
theorem response_equality_shared_blinding_witness :
    (⟨⟨1, 3⟩, 4, ⟨9, [2, 2, 2]⟩⟩ : PoKOfSignatureProof (ZMod 11)).proof_vc.responses[1 + 0]?
        = some (3 + 2 * 5) ∧
    (⟨⟨1, 3⟩, 2, ⟨7, [2, 7, 2]⟩⟩ : PoKOfSignatureProof (ZMod 11)).proof_vc.responses[1 + 1]?
        = some (3 + 2 * 5) :=
  response_equality_shared_blinding
    (rfl : PoKOfSignature.init (F := ZMod 11) ⟨1, 2⟩ ⟨1, 1, 1, [1, 1], [1, 1]⟩ ⟨1, 1⟩
      [5, 9] (some [3, 6]) [] 1 1 (fun _ => 0)
        = .ok ⟨[1, 5, 9], ⟨1, 3⟩, 4, ⟨[1, 1, 1], [0, 3, 6], 9⟩⟩)
    (rfl : PoKOfSignature.init (F := ZMod 11) ⟨1, 2⟩ ⟨1, 1, 1, [1, 1], [1, 1]⟩ ⟨1, 1⟩
      [7, 5] (some [4, 3]) [] 1 1 (fun _ => 0)
        = .ok ⟨[1, 7, 5], ⟨1, 3⟩, 2, ⟨[1, 1, 1], [0, 4, 3], 7⟩⟩)
    (rfl : PoKOfSignature.gen_proof (F := ZMod 11)
      ⟨[1, 5, 9], ⟨1, 3⟩, 4, ⟨[1, 1, 1], [0, 3, 6], 9⟩⟩ 2
        = .ok ⟨⟨1, 3⟩, 4, ⟨9, [2, 2, 2]⟩⟩)
    (rfl : PoKOfSignature.gen_proof (F := ZMod 11)
      ⟨[1, 7, 5], ⟨1, 3⟩, 2, ⟨[1, 1, 1], [0, 4, 3], 7⟩⟩ 2
        = .ok ⟨⟨1, 3⟩, 2, ⟨7, [2, 7, 2]⟩⟩)
    (rfl : (⟨[1, 5, 9], ⟨1, 3⟩, 4, ⟨[1, 1, 1], [0, 3, 6], 9⟩⟩
      : PoKOfSignature (ZMod 11)).secrets[1 + 0]? = some 5)
    (rfl : (⟨[1, 7, 5], ⟨1, 3⟩, 2, ⟨[1, 1, 1], [0, 4, 3], 7⟩⟩
      : PoKOfSignature (ZMod 11)).secrets[1 + 1]? = some 5)
    (rfl : ([3, 6] : List (ZMod 11))[0]? = some 3)
    (rfl : ([4, 3] : List (ZMod 11))[1]? = some 3)

/-- Claim C2: for every proof, key, params, revealed map with in-range keys
and challenge, verification returns `Ok(true)` exactly when both randomized
signature components are non-identity, the inner PoK-VC proof verifies over
the base list `g_tilde` followed by the non-revealed `Y_tilde` entries in
ascending order against committed value `J` and challenge `c`, and the
2-pairing product over `J` folded with the revealed messages is the
identity of Gt. -/
theorem pok_sig_verify_iff (pr : PoKOfSignatureProof F) (vk : Verkey F) (params : Params F)
    (D : List (Nat × F)) (c : F)
    (hnd : (D.map Prod.fst).Nodup)
    (hk : ∀ p ∈ D, p.1 < vk.Y_tilde.length) :
    pr.verify vk params D c = some (.ok true) ↔
      (pr.sig.sigma_1 ≠ 0 ∧ pr.sig.sigma_2 ≠ 0 ∧
       pr.proof_vc.verify (params.g_tilde ::
         ((List.range vk.Y_tilde.length).filter
           (fun i => decide (∀ p ∈ D, p.1 ≠ i))).map (fun i => vk.Y_tilde.getD i 0))
         pr.J c = .ok true ∧
       pr.sig.sigma_1
           * ((pr.J + msm (D.map (fun p => vk.Y_tilde.getD p.1 0)) (D.map Prod.snd))
              + vk.X_tilde)
         + (- pr.sig.sigma_2) * params.g_tilde = 0) := by
  have hlen : D.length ≤ vk.Y_tilde.length := by
    have h1 : ∀ i ∈ D.map Prod.fst, i < vk.Y_tilde.length := by
      intro i hi
      obtain ⟨p, hp, rfl⟩ := List.mem_map.mp hi
      exact hk p hp
    have h2 := revealed_length_le vk.Y_tilde.length (D.map Prod.fst) hnd h1
    simpa using h2
  simp only [PoKOfSignatureProof.verify]
  by_cases hid : pr.sig.sigma_1 = 0 ∨ pr.sig.sigma_2 = 0
  · rw [if_pos hid]
    constructor
    · intro heq
      simp at heq
    · rintro ⟨ha, hb, -, -⟩
      rcases hid with h | h
      exacts [absurd h ha, absurd h hb]
  · push_neg at hid
    rw [if_neg (by push_neg; exact hid), if_neg (Nat.not_lt.mpr hlen)]
    cases hv : pr.proof_vc.verify (params.g_tilde ::
        ((List.range vk.Y_tilde.length).filter
          (fun i => decide (∀ p ∈ D, p.1 ≠ i))).map (fun i => vk.Y_tilde.getD i 0))
        pr.J c with
    | error e =>
      constructor
      · intro heq
        simp at heq
      · rintro ⟨-, -, hok, -⟩
        cases hok
    | ok bv =>
      cases bv with
      | false =>
        constructor
        · intro heq
          simp at heq
        · rintro ⟨-, -, hok, -⟩
          cases hok
      | true =>
        have hany : (D.any (fun p => decide (vk.Y_tilde.length ≤ p.1))) = false := by
          rw [List.any_eq_false]
          intro p hp
          simpa using Nat.not_le.mpr (hk p hp)
        rw [hany]
        simp [hid.1, hid.2]

/-- Claim C2 witness: the characterization at a concrete proof, key and
revealed map. -/
theorem pok_sig_verify_iff_witness :
    (⟨⟨1, 1⟩, 0, ⟨0, [0]⟩⟩ : PoKOfSignatureProof (ZMod 11)).verify
        ⟨1, 1, 0, [5], [5]⟩ ⟨1, 1⟩ [(0, 2)] 0 = some (.ok true) ↔
      ((⟨⟨1, 1⟩, 0, ⟨0, [0]⟩⟩ : PoKOfSignatureProof (ZMod 11)).sig.sigma_1 ≠ 0 ∧
       (⟨⟨1, 1⟩, 0, ⟨0, [0]⟩⟩ : PoKOfSignatureProof (ZMod 11)).sig.sigma_2 ≠ 0 ∧
       (⟨⟨1, 1⟩, 0, ⟨0, [0]⟩⟩ : PoKOfSignatureProof (ZMod 11)).proof_vc.verify
         ((⟨1, 1⟩ : Params (ZMod 11)).g_tilde ::
           ((List.range (⟨1, 1, 0, [5], [5]⟩ : Verkey (ZMod 11)).Y_tilde.length).filter
             (fun i => decide (∀ p ∈ [((0 : Nat), (2 : ZMod 11))], p.1 ≠ i))).map
               (fun i => (⟨1, 1, 0, [5], [5]⟩ : Verkey (ZMod 11)).Y_tilde.getD i 0))
         (⟨⟨1, 1⟩, 0, ⟨0, [0]⟩⟩ : PoKOfSignatureProof (ZMod 11)).J 0 = .ok true ∧
       (⟨⟨1, 1⟩, 0, ⟨0, [0]⟩⟩ : PoKOfSignatureProof (ZMod 11)).sig.sigma_1
           * (((⟨⟨1, 1⟩, 0, ⟨0, [0]⟩⟩ : PoKOfSignatureProof (ZMod 11)).J
                + msm ([((0 : Nat), (2 : ZMod 11))].map
                    (fun p => (⟨1, 1, 0, [5], [5]⟩ : Verkey (ZMod 11)).Y_tilde.getD p.1 0))
                  ([((0 : Nat), (2 : ZMod 11))].map Prod.snd))
              + (⟨1, 1, 0, [5], [5]⟩ : Verkey (ZMod 11)).X_tilde)
         + (- (⟨⟨1, 1⟩, 0, ⟨0, [0]⟩⟩ : PoKOfSignatureProof (ZMod 11)).sig.sigma_2)
             * (⟨1, 1⟩ : Params (ZMod 11)).g_tilde = 0) :=
  pok_sig_verify_iff ⟨⟨1, 1⟩, 0, ⟨0, [0]⟩⟩ ⟨1, 1, 0, [5], [5]⟩ ⟨1, 1⟩
    [((0 : Nat), (2 : ZMod 11))] 0 (by decide) (by decide)

theorem filter_keys_congr (N : Nat) (R : List Nat) (f : Nat → F) :
    (List.range N).filter
        (fun i => decide (∀ p ∈ R.map (fun j => (j, f j)), p.1 ≠ i))
      = (List.range N).filter (fun i => decide (i ∉ R)) := by
  apply List.filter_congr
  intro i _
  apply decide_eq_decide.mpr
  constructor
  · intro h hiR
    exact h (i, f i) (List.mem_map_of_mem _ hiR) rfl
  · intro h p hp
    obtain ⟨j, hj, rfl⟩ := List.mem_map.mp hp
    intro hji
    exact h (hji ▸ hj)

/-- Claim C1 (amended): honest keygen, signing, init and proof generation
with the same label, nonzero generators, nonzero `u`, `r`, `t`, and — the
amendment forced by the counterexample — `x + sum y_i m_i + t` nonzero (so
that the randomized `sigma_2` component is not the identity), yield a proof
accepted for the revealed map `i to m_i` over `R` under any challenge. -/
theorem pok_completeness_with_reveal
    (hashG1 hashG2 : List Nat → F) (label : List Nat) (n : Nat)
    (x : F) (ys : Nat → F) (m : List F) (R : List Nat)
    (u r t c : F) (fr : Nat → F)
    (sig : Signature F) (pok : PoKOfSignature F) (pr : PoKOfSignatureProof F)
    (hm : m.length = n)
    (hnd : R.Nodup) (hR : ∀ i ∈ R, i < n)
    (hg : hashG1 (label ++ gTag) ≠ 0) (hgt : hashG2 (label ++ gTildeTag) ≠ 0)
    (hu : u ≠ 0) (hr : r ≠ 0) (ht : t ≠ 0)
    (hsum : x + msm ((List.range n).map ys) m + t ≠ 0)
    (hsig : Signature.new m x ((List.range n).map ys)
      (Params.new hashG1 hashG2 label) u = .ok sig)
    (hinit : PoKOfSignature.init sig (keygen hashG1 hashG2 n label x ys).2
      (Params.new hashG1 hashG2 label) m none R r t fr = .ok pok)
    (hpr : pok.gen_proof c = .ok pr) :
    pr.verify (keygen hashG1 hashG2 n label x ys).2 (Params.new hashG1 hashG2 label)
      (R.map (fun i => (i, m.getD i 0))) c = some (.ok true) := by
  have hYlen : (keygen hashG1 hashG2 n label x ys).2.Y_tilde.length = n := by
    simp [keygen]
  have hvkYt : (keygen hashG1 hashG2 n label x ys).2.Y_tilde
      = (List.range n).map (fun i => ys i * hashG2 (label ++ gTildeTag)) := by
    show ((List.range n).map ys).map (fun yi => yi * hashG2 (label ++ gTildeTag)) = _
    rw [List.map_map]
    rfl
  have hvkXt : (keygen hashG1 hashG2 n label x ys).2.X_tilde
      = x * hashG2 (label ++ gTildeTag) := rfl
  have hpgt : (Params.new hashG1 hashG2 label).g_tilde = hashG2 (label ++ gTildeTag) := rfl
  have hgetD : ∀ i, i < n →
      (keygen hashG1 hashG2 n label x ys).2.Y_tilde.getD i 0
        = ys i * hashG2 (label ++ gTildeTag) := by
    intro i hi
    rw [hvkYt]
    exact getD_map_range _ hi
  -- the honest signature components
  have hnot : ¬(m.length ≠ ((List.range n).map ys).length) := by simp [hm]
  rw [Signature.new, if_neg hnot] at hsig
  obtain ⟨hs1, hs2⟩ : sig.sigma_1 = u * hashG1 (label ++ gTag) ∧
      sig.sigma_2 = (x + msm ((List.range n).map ys) m) * (u * hashG1 (label ++ gTag)) := by
    rw [← Except.ok.inj hsig]
    exact ⟨rfl, rfl⟩
  -- the state built by init and the proof built by gen_proof
  obtain ⟨hp1, hp2, hp3, hp4, hp5, hp6, ⟨blinds, hbl, hbllen⟩, hmY⟩ :=
    init_ok_shape _ _ _ _ _ _ _ _ _ _ hinit
  obtain ⟨hq1, hq2, hq3, hq4, hq5⟩ := gen_proof_ok_shape _ _ _ hpr
  rw [hYlen] at hp3 hp4
  -- non-identity of the randomized signature
  have hs1ne : pr.sig.sigma_1 ≠ 0 := by
    rw [hq1, hp1, hs1]
    exact mul_ne_zero hr (mul_ne_zero hu hg)
  have hs2ne : pr.sig.sigma_2 ≠ 0 := by
    rw [hq1, hp2, hs2, hs1]
    have hfac : (x + msm ((List.range n).map ys) m) * (u * hashG1 (label ++ gTag))
        + t * (u * hashG1 (label ++ gTag))
        = (x + msm ((List.range n).map ys) m + t) * (u * hashG1 (label ++ gTag)) := by
      ring
    rw [hfac]
    exact mul_ne_zero hr (mul_ne_zero hsum (mul_ne_zero hu hg))
  have hRlen : R.length ≤ n := revealed_length_le n R hnd hR
  -- the inner PoK-VC check accepts
  have hreslen : pr.proof_vc.responses.length = pok.pok_vc.gens.length := by
    rw [hq4, List.length_zipWith, ← hq5, Nat.min_self, hp4, hp3]
    simp
  have hvc : pr.proof_vc.verify pok.pok_vc.gens pr.J c = .ok true := by
    unfold ProofOtherGroup.verify
    rw [if_neg (not_ne_iff.mpr hreslen.symm)]
    have hkey : msm pok.pok_vc.gens pr.proof_vc.responses
        = pr.proof_vc.commitment + c * pr.J := by
      rw [hq4, hq2, hq3, hp6, hp5]
      exact msm_linear c _ _ _ hq5.symm
    rw [decide_eq_true hkey]
  -- assemble the verification run
  simp only [PoKOfSignatureProof.verify]
  rw [if_neg (by push_neg; exact ⟨hs1ne, hs2ne⟩)]
  have hDlen : (R.map (fun i => (i, m.getD i 0))).length
      ≤ (keygen hashG1 hashG2 n label x ys).2.Y_tilde.length := by
    rw [List.length_map, hYlen]
    exact hRlen
  rw [if_neg (Nat.not_lt.mpr hDlen)]
  have hAll : (Params.new hashG1 hashG2 label).g_tilde ::
      ((List.range (keygen hashG1 hashG2 n label x ys).2.Y_tilde.length).filter
        (fun i => decide (∀ p ∈ R.map (fun i => (i, m.getD i 0)), p.1 ≠ i))).map
        (fun i => (keygen hashG1 hashG2 n label x ys).2.Y_tilde.getD i 0)
      = pok.pok_vc.gens := by
    rw [hYlen, filter_keys_congr, hp3]
    rfl
  rw [hAll]
  simp only [hvc]
  have hany : ((R.map (fun i => (i, m.getD i 0))).any
      (fun p => decide ((keygen hashG1 hashG2 n label x ys).2.Y_tilde.length ≤ p.1))) = false := by
    rw [List.any_eq_false]
    intro p hp
    obtain ⟨j, hj, rfl⟩ := List.mem_map.mp hp
    simpa [hYlen] using Nat.not_le.mpr (hR j hj)
  rw [hany]
  simp only [Bool.false_eq_true, if_false]
  refine congrArg (fun b => some (Except.ok b)) (decide_eq_true ?_)
  -- the pairing identity
  rw [hq1, hp1, hp2, hs1, hs2, hq2, hp5, hp3, hp4, msm_cons, msm_map_map]
  have hDfst : (R.map (fun i => (i, m.getD i 0))).map
      (fun p => (keygen hashG1 hashG2 n label x ys).2.Y_tilde.getD p.1 0)
      = R.map (fun i => (keygen hashG1 hashG2 n label x ys).2.Y_tilde.getD i 0) := by
    rw [List.map_map]
    rfl
  have hDsnd : (R.map (fun i => (i, m.getD i 0))).map Prod.snd
      = R.map (fun i => m.getD i 0) := by
    rw [List.map_map]
    rfl
  rw [hDfst, hDsnd, msm_map_map, hpgt, hvkXt]
  have hhidmap : (hiddenIndices n R).map
      (fun i => (keygen hashG1 hashG2 n label x ys).2.Y_tilde.getD i 0 * m.getD i 0)
      = (hiddenIndices n R).map
        (fun i => (ys i * hashG2 (label ++ gTildeTag)) * m.getD i 0) :=
    List.map_congr_left (fun a ha => by
      rw [hgetD a ((hiddenIndices_mem n R a).mp ha).1])
  have hRmap : R.map
      (fun i => (keygen hashG1 hashG2 n label x ys).2.Y_tilde.getD i 0 * m.getD i 0)
      = R.map (fun i => (ys i * hashG2 (label ++ gTildeTag)) * m.getD i 0) :=
    List.map_congr_left (fun a ha => by rw [hgetD a (hR a ha)])
  rw [hhidmap, hRmap]
  have hsplit := hidden_sum_split n R
    (fun i => (ys i * hashG2 (label ++ gTildeTag)) * m.getD i 0) hnd hR
  have hrange : ((List.range n).map
      (fun i => (ys i * hashG2 (label ++ gTildeTag)) * m.getD i 0)).sum
      = hashG2 (label ++ gTildeTag) * msm ((List.range n).map ys) m := by
    have h1 : msm ((List.range n).map ys) m
        = ((List.range n).map (fun i => ys i * m.getD i 0)).sum := by
      unfold msm
      rw [zipWith_mul_map_range ys m hm]
    rw [h1, ← List.sum_map_mul_left]
    apply congrArg List.sum
    apply List.map_congr_left
    intro a _
    ring
  have hcomb := hsplit.trans hrange
  linear_combination (r * (u * hashG1 (label ++ gTag))) * hcomb

/-- Claim C1 counterexample: an honest run over `ZMod 11` with nonzero
random scalars `u = 1`, `r = 1`, `t = 9` drawn within the claimed
constraints, where `t = -(x + sum y_i m_i)`: the randomized `sigma_2` is the
identity and verification returns `Ok(false)`, refuting the claim that
every such honest run verifies to `Ok(true)`. -/
theorem pok_completeness_reveal_cex :
    ((1 : ZMod 11) ≠ 0) ∧ ((9 : ZMod 11) ≠ 0) ∧
    Signature.new (F := ZMod 11) [1] 1 ((List.range 1).map (fun _ => 1))
      (Params.new (fun _ => 1) (fun _ => 1) []) 1 = .ok ⟨1, 2⟩ ∧
    PoKOfSignature.init (F := ZMod 11) ⟨1, 2⟩
      (keygen (fun _ => 1) (fun _ => 1) 1 [] 1 (fun _ => 1)).2
      (Params.new (fun _ => 1) (fun _ => 1) []) [1] none [] 1 9 (fun _ => 0)
      = .ok ⟨[9, 1], ⟨1, 0⟩, 10, ⟨[1, 1], [0, 0], 0⟩⟩ ∧
    PoKOfSignature.gen_proof (F := ZMod 11)
      ⟨[9, 1], ⟨1, 0⟩, 10, ⟨[1, 1], [0, 0], 0⟩⟩ 0
      = .ok ⟨⟨1, 0⟩, 10, ⟨0, [0, 0]⟩⟩ ∧
    (⟨⟨1, 0⟩, 10, ⟨0, [0, 0]⟩⟩ : PoKOfSignatureProof (ZMod 11)).verify
      (keygen (fun _ => 1) (fun _ => 1) 1 [] 1 (fun _ => 1)).2
      (Params.new (fun _ => 1) (fun _ => 1) [])
      (([] : List Nat).map (fun i => (i, ([1] : List (ZMod 11)).getD i 0))) 0
      = some (.ok false) :=
  ⟨by decide, by decide, rfl, rfl, rfl, rfl⟩

/-- Claim C1 witness: an honest run over `ZMod 11` with two messages,
index 1 revealed, satisfying the amended nonzero condition, accepted by the
verifier. -/
theorem pok_completeness_with_reveal_witness :
    (⟨⟨4, 2⟩, 1, ⟨6, [8, 0]⟩⟩ : PoKOfSignatureProof (ZMod 11)).verify
      (keygen (fun _ => 2) (fun _ => 3) 2 [] 5 (fun i => (i : ZMod 11) + 1)).2
      (Params.new (fun _ => 2) (fun _ => 3) [])
      ([1].map (fun i => (i, ([3, 4] : List (ZMod 11)).getD i 0))) 7 = some (.ok true) :=
  pok_completeness_with_reveal (fun _ => 2) (fun _ => 3) [] 2 5
    (fun i => (i : ZMod 11) + 1) [3, 4] [1] 1 2 1 7 (fun _ => 1) ⟨2, 10⟩
    ⟨[1, 3], ⟨4, 2⟩, 1, ⟨[3, 3], [1, 1], 6⟩⟩ ⟨⟨4, 2⟩, 1, ⟨6, [8, 0]⟩⟩
    rfl (by decide) (by decide) (by decide) (by decide) (by decide) (by decide)
    (by decide) (by decide) rfl rfl rfl

end PSSig
